import Mathlib

/-!
# VXLAN frame codec (package `vxlan`, RFC 7348)

A shallow embedding of `vxlan.go` and `client.go`.

* A Go `[]byte` is a `List Byte` with `Byte = Fin 256`.
* `VNI` is Go's `uint32`, carried as a natural number; conversions that would
  truncate are written with an explicit `%`.
* A Go pointer `*ethernet.Frame` is an `Option E`: `none` is the nil pointer.
* A function that can hit a runtime panic (index or slice out of range)
  returns an `Option`: `none` is the panic.
* Package `ethernet` (github.com/mdlayher/ethernet) is an external dependency.
  Its two methods used here, `(*ethernet.Frame).MarshalBinary` and
  `(*ethernet.Frame).UnmarshalBinary`, are parameters `encEth` and `decEth` of
  the embedding.
-/

namespace vxlan

/-- One Go `byte`. -/
abbrev Byte := Fin 256

/-- Go conversion `byte(x)` of an unsigned integer: keeps the low 8 bits. -/
def byte (x : Nat) : Byte := ⟨x % 256, Nat.mod_lt x (by decide)⟩

/-- Maximum possible value for a VNI: `MaxVNI = (1 << 24) - 1`. -/
def MaxVNI : Nat := (1 <<< 24) - 1

/-- Go `error` values that reach this package. `ErrUnexpectedEOF` is
`io.ErrUnexpectedEOF`; `ErrInvalidFrame` and `ErrInvalidVNI` are the two
package-level variables of `vxlan`; `other code` is any other error value
(those of package `ethernet`, of the network stack, ...), told apart by
`code`. Go compares these values by identity, which is `=` here. -/
inductive Error where
  | ErrUnexpectedEOF
  | ErrInvalidFrame
  | ErrInvalidVNI
  | other (code : Nat)
  deriving DecidableEq

/-- True of the error values that are not declared by package `vxlan`. -/
def Error.foreign : Error → Bool
  | .ErrInvalidFrame => false
  | .ErrInvalidVNI => false
  | _ => true

/-- An error value returned by package `ethernet`. That package is imported by
`vxlan` and so cannot refer to `vxlan.ErrInvalidFrame` or `vxlan.ErrInvalidVNI`;
it can return `io.ErrUnexpectedEOF` and its own values. The carried value
`e.val` is the `error` itself. -/
abbrev EthError := {e : Error // e.foreign = true}

/-- Equality of Go results `(value, error)` can be decided. -/
instance instDecidableEqExcept {ε α : Type} [DecidableEq ε] [DecidableEq α] :
    DecidableEq (Except ε α)
  | .ok a, .ok b =>
    if h : a = b then isTrue (by rw [h]) else isFalse (fun h1 => h (by cases h1; rfl))
  | .error a, .error b =>
    if h : a = b then isTrue (by rw [h]) else isFalse (fun h1 => h (by cases h1; rfl))
  | .ok _, .error _ => isFalse (fun h => by cases h)
  | .error _, .ok _ => isFalse (fun h => by cases h)

/-- Method `func (v VNI) Valid() bool`. -/
def VNI.Valid (v : Nat) : Bool := decide (v ≤ MaxVNI)

/-- The struct `Frame`: a VNI (`uint32`) and a pointer to an Ethernet frame. -/
structure Frame (E : Type) where
  VNI : Nat
  Ethernet : Option E
  deriving DecidableEq

/-- Go slice expression `b[lo:]`; panics when `lo > len(b)`. -/
def sliceFrom (b : List Byte) (lo : Nat) : Option (List Byte) :=
  if lo ≤ b.length then some (b.drop lo) else none

/-- Go slice expression `b[:hi]` on a slice whose capacity is its length;
panics when `hi > len(b)`. -/
def sliceTo (b : List Byte) (hi : Nat) : Option (List Byte) :=
  if hi ≤ b.length then some (b.take hi) else none

/-- The standard library's `binary.BigEndian.Uint32(b)`: bounds check on `b[3]`, then
`uint32(b[3]) | uint32(b[2])<<8 | uint32(b[1])<<16 | uint32(b[0])<<24`. -/
def Uint32 (b : List Byte) : Option Nat :=
  match b with
  | b0 :: b1 :: b2 :: b3 :: _ =>
    some (b3.val ||| (b2.val <<< 8) ||| (b1.val <<< 16) ||| (b0.val <<< 24))
  | _ => none

/-- The standard library's `binary.BigEndian.PutUint32(b, v)`: bounds check on `b[3]`, then
`b[0] = byte(v >> 24)`, `b[1] = byte(v >> 16)`, `b[2] = byte(v >> 8)`, `b[3] = byte(v)`. -/
def PutUint32 (b : List Byte) (v : Nat) : Option (List Byte) :=
  if 3 < b.length then
    some ((((b.set 0 (byte (v >>> 24))).set 1 (byte (v >>> 16))).set 2 (byte (v >>> 8))).set 3
      (byte v))
  else none

/-- Method `func (f *Frame) MarshalBinary() ([]byte, error)`.
`encEth` is `(*ethernet.Frame).MarshalBinary`, called on the pointer `f.Ethernet`.
The write through the slice `b[3:]` lands in `b` itself, which is rebuilt here
from its first three bytes and the written slice. -/
def MarshalBinary {E : Type} (encEth : Option E → Except EthError (List Byte))
    (f : Frame E) : Option (Except Error (List Byte)) :=
  if !VNI.Valid f.VNI then some (.error .ErrInvalidVNI) else
  match encEth f.Ethernet with
  | .error err => some (.error err.val)
  | .ok efb => do
    let b : List Byte := List.replicate 8 0
    -- I flag is always set to 1, all others are reserved
    let b0 ← b[0]?
    let b := b.set 0 (byte (b0.val ||| (1 <<< 3)))
    let s ← sliceFrom b 3
    let s ← PutUint32 s (f.VNI % 2 ^ 32)
    let b := b.take 3 ++ s
    -- Ethernet frame bytes accompany VXLAN frame
    some (.ok (b ++ efb))

/-- Method `func (f *Frame) UnmarshalBinary(b []byte) error`.
The result is the receiver after the call together with the returned error
(`none` is Go's `nil` error). `decEth` is `(*ethernet.Frame).UnmarshalBinary`
run on a fresh `new(ethernet.Frame)`; on success it yields the filled frame. -/
def UnmarshalBinary {E : Type} (decEth : List Byte → Except EthError E)
    (f : Frame E) (b : List Byte) : Option (Frame E × Option Error) :=
  -- Need at least VXLAN frame and empty Ethernet frame
  if b.length < 18 then some (f, some .ErrUnexpectedEOF) else do
  -- I flag must be set to 1.
  let b0 ← b[0]?
  if (b0.val >>> 3) ≠ 1 then some (f, some .ErrInvalidFrame) else do
  let s ← sliceFrom b 3
  let v ← Uint32 s
  let f := { f with VNI := v }
  let s8 ← sliceFrom b 8
  match decEth s8 with
  | .error err => some (f, some err.val)
  | .ok ef => some ({ f with Ethernet := some ef }, none)

/-- Method `func (c *Client) Read() (*Frame, net.Addr, error)` of `client.go`.
The socket read `c.p.ReadFrom(c.b)` is the parameter `readFrom`: given the receive
buffer it either fails with an error or yields the buffer as filled, the byte count `n`
and the source address. The result is the triple Go returns (`none` is `nil`), or `none`
for the panic of `c.b[:n]` out of range. -/
def Client.Read {E A : Type} (decEth : List Byte → Except EthError E)
    (readFrom : List Byte → Except Error (List Byte × Nat × A)) (cb : List Byte) :
    Option (Option (Frame E) × Option A × Option Error) :=
  match readFrom cb with
  | .error err => some (none, none, some err)
  | .ok (cb1, n, src) => do
    let s ← sliceTo cb1 n
    let r ← UnmarshalBinary decEth (⟨0, none⟩ : Frame E) s
    some (some r.1, some src, r.2)

/-! ## A concrete Ethernet collaborator for closed examples -/

/-- A stand-in for package `ethernet` used in closed examples: an Ethernet frame
is its own byte string, encoding a nil frame fails, and an encoding shorter
than 14 bytes (two addresses and an EtherType) is refused as truncated. -/
def rawEnc : Option (List Byte) → Except EthError (List Byte)
  | none => .error ⟨.other 0, rfl⟩
  | some bs => if bs.length < 14 then .error ⟨.other 1, rfl⟩ else .ok bs

/-- Decoder of the stand-in collaborator. -/
def rawDec (bs : List Byte) : Except EthError (List Byte) :=
  if bs.length < 14 then .error ⟨.ErrUnexpectedEOF, rfl⟩ else .ok bs

/-- The 14 zero bytes of an empty Ethernet frame header: destination, source, EtherType. -/
def eth14 : List Byte := List.replicate 14 0

/-! ## Lemmas on the byte-order helpers -/

/-- The shifts and ors of `Uint32` add up to the big-endian value. -/
theorem Uint32_cons (b0 b1 b2 b3 : Byte) (t : List Byte) :
    Uint32 (b0 :: b1 :: b2 :: b3 :: t)
      = some (b0.val * 2 ^ 24 + b1.val * 2 ^ 16 + b2.val * 2 ^ 8 + b3.val) := by
  have h1 := b1.isLt
  have h2 := b2.isLt
  have h3 := b3.isLt
  have e1 : b3.val ||| (b2.val <<< 8) = 2 ^ 8 * b2.val + b3.val := by
    rw [Nat.shiftLeft_eq, Nat.or_comm, Nat.mul_comm]
    exact (Nat.mul_add_lt_is_or (by omega) _).symm
  have e2 : (2 ^ 8 * b2.val + b3.val) ||| (b1.val <<< 16)
      = 2 ^ 16 * b1.val + (2 ^ 8 * b2.val + b3.val) := by
    rw [Nat.shiftLeft_eq, Nat.or_comm, Nat.mul_comm]
    exact (Nat.mul_add_lt_is_or (by omega) _).symm
  have e3 : (2 ^ 16 * b1.val + (2 ^ 8 * b2.val + b3.val)) ||| (b0.val <<< 24)
      = 2 ^ 24 * b0.val + (2 ^ 16 * b1.val + (2 ^ 8 * b2.val + b3.val)) := by
    rw [Nat.shiftLeft_eq, Nat.or_comm, Nat.mul_comm]
    exact (Nat.mul_add_lt_is_or (by omega) _).symm
  simp only [Uint32, e1, e2, e3]
  congr 1
  omega

/-- What `MarshalBinary` returns once the VNI check and the inner encoding pass. -/
theorem MarshalBinary_ok {E : Type} (encEth : Option E → Except EthError (List Byte))
    (f : Frame E) (e : List Byte) (hv : f.VNI ≤ MaxVNI) (he : encEth f.Ethernet = .ok e) :
    MarshalBinary encEth f
      = some (.ok ([8, 0, 0, byte (f.VNI >>> 24), byte (f.VNI >>> 16), byte (f.VNI >>> 8),
          byte f.VNI, 0] ++ e)) := by
  have hm : f.VNI % 4294967296 = f.VNI := Nat.mod_eq_of_lt (by simp [MaxVNI] at hv; omega)
  simp [MarshalBinary, VNI.Valid, hv, he, sliceFrom, PutUint32, hm, byte]

/-- A valid VNI has an empty top byte and is the sum of its three low bytes. -/
theorem valid_bytes (v : Nat) (hv : v ≤ MaxVNI) :
    (byte (v >>> 24)).val = 0 ∧
      (byte (v >>> 16)).val * 2 ^ 16 + (byte (v >>> 8)).val * 2 ^ 8 + (byte v).val = v := by
  simp only [MaxVNI, Nat.shiftLeft_eq] at hv
  simp only [byte, Nat.shiftRight_eq_div_pow]
  omega

/-- What `UnmarshalBinary` does on a buffer of at least 18 bytes, split into its eight
header bytes and the rest. -/
theorem UnmarshalBinary_cons {E : Type} (decEth : List Byte → Except EthError E)
    (f : Frame E) (b0 b1 b2 b3 b4 b5 b6 b7 : Byte) (t : List Byte) (ht : 10 ≤ t.length) :
    UnmarshalBinary decEth f (b0 :: b1 :: b2 :: b3 :: b4 :: b5 :: b6 :: b7 :: t)
      = if b0.val >>> 3 ≠ 1 then some (f, some .ErrInvalidFrame) else
        match decEth t with
        | .error err =>
          some ({ f with VNI := b3.val * 2 ^ 24 + b4.val * 2 ^ 16 + b5.val * 2 ^ 8 + b6.val },
            some err.val)
        | .ok ef =>
          some ({ VNI := b3.val * 2 ^ 24 + b4.val * 2 ^ 16 + b5.val * 2 ^ 8 + b6.val,
                  Ethernet := some ef }, none) := by
  have hl : ¬ (t.length + 1 + 1 + 1 + 1 + 1 + 1 + 1 + 1 < 18) := by omega
  simp only [UnmarshalBinary, List.length_cons, hl, if_false]
  by_cases h0 : b0.val >>> 3 = 1
  · simp [h0, sliceFrom, Uint32_cons]
  · simp [h0]

/-- A list of at least eight elements is eight elements followed by its ninth tail. -/
theorem eight_cons {α : Type} (b : List α) (h : 8 ≤ b.length) :
    ∃ b0 b1 b2 b3 b4 b5 b6 b7, b = b0 :: b1 :: b2 :: b3 :: b4 :: b5 :: b6 :: b7 :: b.drop 8 := by
  match b, h with
  | b0 :: b1 :: b2 :: b3 :: b4 :: b5 :: b6 :: b7 :: t, _ =>
    exact ⟨b0, b1, b2, b3, b4, b5, b6, b7, rfl⟩

/-- Decoding what `MarshalBinary` returned for `f` gives `f` back, when the collaborator
decodes the inner encoding `e` back to the inner frame `x` of `f`. -/
theorem decode_encoded {E : Type}
    (encEth : Option E → Except EthError (List Byte)) (decEth : List Byte → Except EthError E)
    (f : Frame E) (x : E) (e : List Byte)
    (hv : f.VNI ≤ MaxVNI) (hx : f.Ethernet = some x) (henc : encEth f.Ethernet = .ok e)
    (hlen : 10 ≤ e.length) (hdec : decEth e = .ok x) (g : Frame E) :
    ∃ b, MarshalBinary encEth f = some (.ok b) ∧
      UnmarshalBinary decEth g b = some (f, none) := by
  obtain ⟨h24, hsum⟩ := valid_bytes f.VNI hv
  have hf : ({ VNI := f.VNI, Ethernet := some x } : Frame E) = f := by
    cases f; simp_all
  refine ⟨_, MarshalBinary_ok encEth f e hv henc, ?_⟩
  rw [List.cons_append, List.cons_append, List.cons_append, List.cons_append, List.cons_append,
    List.cons_append, List.cons_append, List.cons_append, List.nil_append,
    UnmarshalBinary_cons decEth g _ _ _ _ _ _ _ _ e hlen, hdec]
  have h8 : ¬ ((8 : Byte).val >>> 3 ≠ 1) := by decide
  simp only [h8, if_false, h24, Nat.zero_mul, Nat.zero_add, hsum, hf]

/-! ## Round trips -/

/-- C1. Decode after encode: for a Frame `f` with `VNI ≤ 2^24-1` whose inner frame `x` the
collaborator encodes to `e`, with `e` at least 10 bytes long and decoded back to `x` by the
collaborator, `MarshalBinary` returns some bytes `b`, and `UnmarshalBinary` of `b` on any
receiver `g` succeeds and leaves in the receiver the VNI of `f` and the inner frame `x`,
which is `f` itself. -/
theorem UnmarshalBinary_MarshalBinary {E : Type}
    (encEth : Option E → Except EthError (List Byte)) (decEth : List Byte → Except EthError E)
    (f : Frame E) (x : E) (e : List Byte)
    (hv : f.VNI ≤ 2 ^ 24 - 1) (hx : f.Ethernet = some x) (henc : encEth f.Ethernet = .ok e)
    (hlen : 10 ≤ e.length) (hdec : decEth e = .ok x) (g : Frame E) :
    ∃ b, MarshalBinary encEth f = some (.ok b) ∧
      UnmarshalBinary decEth g b = some ({ VNI := f.VNI, Ethernet := some x }, none) ∧
      UnmarshalBinary decEth g b = some (f, none) := by
  obtain ⟨b, hb, hu⟩ := decode_encoded encEth decEth f x e hv hx henc hlen hdec g
  refine ⟨b, hb, ?_, hu⟩
  rw [hu, ← hx]

/-- Witness of C1: VNI 1 over an empty Ethernet frame of 14 zero bytes. -/
theorem UnmarshalBinary_MarshalBinary_witness :
    ∃ b, MarshalBinary rawEnc ⟨1, some eth14⟩ = some (.ok b) ∧
      UnmarshalBinary rawDec ⟨0, none⟩ b
        = some ({ VNI := (Frame.mk 1 (some eth14)).VNI, Ethernet := some eth14 }, none) ∧
      UnmarshalBinary rawDec ⟨0, none⟩ b = some (⟨1, some eth14⟩, none) :=
  UnmarshalBinary_MarshalBinary rawEnc rawDec ⟨1, some eth14⟩ eth14 eth14
    (by decide) rfl (by decide) (by decide) (by decide) ⟨0, none⟩

/-- C2. Encode after decode: when `b` is what `MarshalBinary` returned for a Frame `f`, and
the collaborator's encodings of `f`'s inner frame are at least 10 bytes long and decode
back to that frame, `UnmarshalBinary` of `b` succeeds on any receiver and `MarshalBinary`
of the decoded Frame returns exactly `b`. -/
theorem MarshalBinary_UnmarshalBinary {E : Type}
    (encEth : Option E → Except EthError (List Byte)) (decEth : List Byte → Except EthError E)
    (f : Frame E) (b : List Byte)
    (hb : MarshalBinary encEth f = some (.ok b))
    (hrt : ∀ e, encEth f.Ethernet = .ok e →
      10 ≤ e.length ∧ ∃ x, f.Ethernet = some x ∧ decEth e = .ok x)
    (g : Frame E) :
    ∃ f1, UnmarshalBinary decEth g b = some (f1, none) ∧
      MarshalBinary encEth f1 = some (.ok b) := by
  have hv : f.VNI ≤ MaxVNI := by
    by_contra hn
    simp [MarshalBinary, VNI.Valid, hn] at hb
  cases he : encEth f.Ethernet with
  | error err => simp [MarshalBinary, VNI.Valid, hv, he] at hb
  | ok e =>
    obtain ⟨hlen, x, hx, hdec⟩ := hrt e he
    obtain ⟨b1, hb1, hu⟩ := decode_encoded encEth decEth f x e hv hx he hlen hdec g
    have hbb : b1 = b := by
      rw [hb1] at hb
      injection hb with hb
      injection hb
    subst hbb
    exact ⟨f, hu, hb1⟩

/-- Witness of C2: the canonical header of VNI `MaxVNI` over an empty Ethernet frame. -/
theorem MarshalBinary_UnmarshalBinary_witness :
    ∃ f1, UnmarshalBinary rawDec ⟨0, none⟩ ([0x08, 0, 0, 0, 0xff, 0xff, 0xff, 0] ++ eth14)
        = some (f1, none) ∧
      MarshalBinary rawEnc f1 = some (.ok ([0x08, 0, 0, 0, 0xff, 0xff, 0xff, 0] ++ eth14)) :=
  MarshalBinary_UnmarshalBinary rawEnc rawDec ⟨MaxVNI, some eth14⟩
    ([0x08, 0, 0, 0, 0xff, 0xff, 0xff, 0] ++ eth14) (by decide)
    (fun e he => by
      have h : e = eth14 := by
        have h1 : rawEnc (some eth14) = .ok eth14 := by decide
        rw [show (Frame.mk MaxVNI (some eth14)).Ethernet = some eth14 from rfl, h1] at he
        injection he with he
        exact he.symm
      subst h
      exact ⟨by decide, eth14, rfl, by decide⟩)
    ⟨0, none⟩

/-! ## Encoding -/

/-- C3. Wire layout of the encoding: for a Frame with `VNI = v ≤ 2^24-1` whose inner frame
encodes to `e`, `MarshalBinary` returns the eight header bytes
`08 00 00 00 (v>>16)&0xFF (v>>8)&0xFF v&0xFF 00` followed by `e`, so `8 + len(e)` bytes. -/
theorem MarshalBinary_layout {E : Type} (encEth : Option E → Except EthError (List Byte))
    (f : Frame E) (e : List Byte) (hv : f.VNI ≤ MaxVNI) (he : encEth f.Ethernet = .ok e) :
    ∃ out, MarshalBinary encEth f = some (.ok out) ∧
      out.map Fin.val
        = [0x08, 0x00, 0x00, 0x00, (f.VNI >>> 16) &&& 0xFF, (f.VNI >>> 8) &&& 0xFF,
            f.VNI &&& 0xFF, 0x00] ++ e.map Fin.val ∧
      out.length = 8 + e.length ∧ out.take 8 ++ e = out := by
  refine ⟨_, MarshalBinary_ok encEth f e hv he, ?_, ?_, ?_⟩
  · have h24 := (valid_bytes f.VNI hv).1
    have hm : ∀ n : Nat, n &&& 0xFF = n % 256 := fun n => Nat.and_pow_two_sub_one_eq_mod n 8
    simp only [byte] at h24
    simp [hm, byte]
    exact ⟨rfl, h24⟩
  · simp; omega
  · simp

/-- Witness of C3: VNI 1 over an empty Ethernet frame. -/
theorem MarshalBinary_layout_witness :
    ∃ out, MarshalBinary rawEnc ⟨1, some eth14⟩ = some (.ok out) ∧
      out.map Fin.val
        = [0x08, 0x00, 0x00, 0x00, ((1 : Nat) >>> 16) &&& 0xFF, ((1 : Nat) >>> 8) &&& 0xFF,
            (1 : Nat) &&& 0xFF, 0x00] ++ eth14.map Fin.val ∧
      out.length = 8 + eth14.length ∧ out.take 8 ++ eth14 = out :=
  MarshalBinary_layout rawEnc ⟨1, some eth14⟩ eth14 (by decide) (by decide)

/-- C4. `MarshalBinary` fails with `ErrInvalidVNI` exactly when `VNI > 2^24-1`; the VNI check
comes before the inner frame, so an out-of-range VNI gives `ErrInvalidVNI` with every
collaborator and every inner frame, also a failing one; VNI 0 and VNI 16777215 are
accepted when the inner frame encodes, and VNI 16777216 is rejected. -/
theorem MarshalBinary_ErrInvalidVNI_iff {E : Type}
    (encEth : Option E → Except EthError (List Byte)) (f : Frame E) :
    (MarshalBinary encEth f = some (.error .ErrInvalidVNI) ↔ 2 ^ 24 - 1 < f.VNI) ∧
    (2 ^ 24 - 1 < f.VNI →
      ∀ (enc1 : Option E → Except EthError (List Byte)) (eth : Option E),
        MarshalBinary enc1 ⟨f.VNI, eth⟩ = some (.error .ErrInvalidVNI)) ∧
    (∀ e, encEth f.Ethernet = .ok e →
      (∃ out, MarshalBinary encEth ⟨0, f.Ethernet⟩ = some (.ok out)) ∧
      (∃ out, MarshalBinary encEth ⟨16777215, f.Ethernet⟩ = some (.ok out))) ∧
    MarshalBinary encEth ⟨16777216, f.Ethernet⟩ = some (.error .ErrInvalidVNI) := by
  have hbig : ∀ (v : Nat), 2 ^ 24 - 1 < v →
      ∀ (enc1 : Option E → Except EthError (List Byte)) (eth : Option E),
        MarshalBinary enc1 ⟨v, eth⟩ = some (.error .ErrInvalidVNI) := by
    intro v hv enc1 eth
    have hn : ¬ v ≤ MaxVNI := by simp [MaxVNI]; omega
    simp [MarshalBinary, VNI.Valid, hn]
  refine ⟨⟨?_, fun h => hbig f.VNI h encEth f.Ethernet⟩, hbig f.VNI, ?_, hbig _ (by decide) _ _⟩
  · intro h
    by_contra hn
    have hv : f.VNI ≤ MaxVNI := by simp [MaxVNI]; omega
    cases he : encEth f.Ethernet with
    | error err =>
      have hp := err.property
      simp only [MarshalBinary, VNI.Valid, hv, he, decide_True, Bool.not_true,
        Bool.false_eq_true, if_false, Option.some.injEq, Except.error.injEq] at h
      rw [h] at hp
      exact absurd hp (by decide)
    | ok e =>
      rw [MarshalBinary_ok encEth f e hv he] at h
      injection h with h
      injection h
  · intro e he
    exact ⟨⟨_, MarshalBinary_ok encEth ⟨0, f.Ethernet⟩ e (Nat.zero_le _) he⟩,
      ⟨_, MarshalBinary_ok encEth ⟨16777215, f.Ethernet⟩ e
        (show 16777215 ≤ MaxVNI by decide) he⟩⟩

/-! ## Decoding -/

/-- C5. Minimum length: on every buffer shorter than 18 bytes `UnmarshalBinary` returns
`io.ErrUnexpectedEOF`, whatever the bytes are and whatever the inner decoder is (it has no
part in the result), and the receiver is untouched; so it is on the one-byte buffer `00`,
whose I flag is not set. -/
theorem UnmarshalBinary_short {E : Type} (decEth : List Byte → Except EthError E)
    (f : Frame E) (b : List Byte) (h : b.length < 18) :
    UnmarshalBinary decEth f b = some (f, some .ErrUnexpectedEOF) ∧
    (∀ dec1 : List Byte → Except EthError E,
      UnmarshalBinary dec1 f b = UnmarshalBinary decEth f b) ∧
    UnmarshalBinary decEth f [0x00] = some (f, some .ErrUnexpectedEOF) := by
  refine ⟨?_, ?_, ?_⟩
  · simp [UnmarshalBinary, h]
  · intro dec1
    simp [UnmarshalBinary, h]
  · simp [UnmarshalBinary]

/-- Witness of C5: seventeen bytes with a canonical header are still too short, with the
stand-in decoder as with one that always fails. -/
theorem UnmarshalBinary_short_witness :
    UnmarshalBinary rawDec ⟨5, none⟩ ([0x08, 0, 0, 0, 0, 0, 1, 0] ++ List.replicate 9 0)
        = some (⟨5, none⟩, some .ErrUnexpectedEOF) ∧
    UnmarshalBinary (fun _ => .error ⟨.other 9, rfl⟩) ⟨5, none⟩
        ([0x08, 0, 0, 0, 0, 0, 1, 0] ++ List.replicate 9 0)
      = UnmarshalBinary rawDec ⟨5, none⟩ ([0x08, 0, 0, 0, 0, 0, 1, 0] ++ List.replicate 9 0) ∧
    UnmarshalBinary rawDec ⟨5, none⟩ [0x00] = some (⟨5, none⟩, some .ErrUnexpectedEOF) :=
  have h := UnmarshalBinary_short rawDec ⟨5, none⟩
    ([0x08, 0, 0, 0, 0, 0, 1, 0] ++ List.replicate 9 0) (by decide)
  ⟨h.1, h.2.1 (fun _ => .error ⟨.other 9, rfl⟩), h.2.2⟩

/-- The I-flag test `(b0 >> 3) != 1` fires whenever bit 3 of the byte is cleared. -/
theorem shift_ne_one_of_bit_cleared (n : Nat) (hbit : n &&& 0x08 = 0) : n >>> 3 ≠ 1 := by
  intro hs
  rw [Nat.shiftRight_eq_div_pow] at hs
  have h1 : 8 ≤ n := by omega
  have h2 : n ≤ 15 := by omega
  interval_cases n <;> simp at hbit

/-- C6. I-flag enforcement: on every buffer of at least 18 bytes whose byte 0 has bit 3
(mask 0x08) cleared, `UnmarshalBinary` returns `ErrInvalidFrame`, whatever the other bits
and bytes are and whatever the inner decoder would say; the receiver is untouched. -/
theorem UnmarshalBinary_I_flag_cleared {E : Type} (decEth : List Byte → Except EthError E)
    (f : Frame E) (b : List Byte) (b0 : Byte)
    (hlen : 18 ≤ b.length) (h0 : b[0]? = some b0) (hbit : b0.val &&& 0x08 = 0) :
    UnmarshalBinary decEth f b = some (f, some .ErrInvalidFrame) := by
  have hl : ¬ b.length < 18 := by omega
  have hs := shift_ne_one_of_bit_cleared b0.val hbit
  simp [UnmarshalBinary, hl, h0, hs]

/-- Witness of C6: the header `00 00 00 00 00 00 01 00` of the test, over a well-formed
inner frame. -/
theorem UnmarshalBinary_I_flag_cleared_witness :
    UnmarshalBinary rawDec ⟨5, none⟩ ([0x00, 0, 0, 0, 0, 0, 1, 0] ++ eth14)
      = some (⟨5, none⟩, some .ErrInvalidFrame) :=
  UnmarshalBinary_I_flag_cleared rawDec ⟨5, none⟩ ([0x00, 0, 0, 0, 0, 0, 1, 0] ++ eth14) 0
    (by decide) (by decide) (by decide)

/-- C7. Reserved-bit tolerance fails on the code: a buffer that starts
`18 00 00 00 00 00 01 00` and goes on with at least 10 bytes that the inner decoder accepts
has bit 3 of byte 0 set, yet `UnmarshalBinary` returns `ErrInvalidFrame` and leaves the
receiver as it was, because bit 4 of byte 0 is set too and the test `(b[0] >> 3) != 1`
compares all five high bits. -/
theorem UnmarshalBinary_reserved_high_bit {E : Type}
    (decEth : List Byte → Except EthError E) (f : Frame E) (t : List Byte) (ef : E)
    (ht : 10 ≤ t.length) (hd : decEth t = .ok ef) :
    (0x18 : Nat) &&& 0x08 = 0x08 ∧
    UnmarshalBinary decEth f ([0x18, 0, 0, 0, 0, 0, 1, 0] ++ t)
      = some (f, some .ErrInvalidFrame) := by
  refine ⟨by decide, ?_⟩
  rw [List.cons_append, List.cons_append, List.cons_append, List.cons_append,
    List.cons_append, List.cons_append, List.cons_append, List.cons_append, List.nil_append,
    UnmarshalBinary_cons decEth f _ _ _ _ _ _ _ _ t ht, hd]
  rfl

/-- Witness of C7: the inner frame is an empty Ethernet frame of 14 zero bytes. -/
theorem UnmarshalBinary_reserved_high_bit_witness :
    (0x18 : Nat) &&& 0x08 = 0x08 ∧
    UnmarshalBinary rawDec ⟨0, none⟩ ([0x18, 0, 0, 0, 0, 0, 1, 0] ++ eth14)
      = some (⟨0, none⟩, some .ErrInvalidFrame) :=
  UnmarshalBinary_reserved_high_bit rawDec ⟨0, none⟩ eth14 eth14 (by decide) (by decide)

/-- C8. VNI extraction: on every buffer of at least 18 bytes that passes the I-flag test
`b[0] >> 3 == 1` and whose bytes from offset 8 the inner decoder accepts, `UnmarshalBinary`
succeeds whatever bytes 3..6 are, and the decoded VNI is
`b[3]*2^24 + b[4]*2^16 + b[5]*2^8 + b[6]`; the headers `08 00 00 00 FF FF FF 00` and
`08 00 00 00 00 00 01 00` decode to VNI 16777215 and VNI 1. -/
theorem UnmarshalBinary_VNI {E : Type} (decEth : List Byte → Except EthError E)
    (f : Frame E) (b : List Byte) (b0 b3 b4 b5 b6 : Byte) (ef : E)
    (hlen : 18 ≤ b.length) (h0 : b[0]? = some b0) (hflag : b0.val >>> 3 = 1)
    (h3 : b[3]? = some b3) (h4 : b[4]? = some b4) (h5 : b[5]? = some b5)
    (h6 : b[6]? = some b6) (hdec : decEth (b.drop 8) = .ok ef) :
    UnmarshalBinary decEth f b
      = some ({ VNI := b3.val * 2 ^ 24 + b4.val * 2 ^ 16 + b5.val * 2 ^ 8 + b6.val,
                Ethernet := some ef }, none) ∧
    (∀ t, 10 ≤ t.length → decEth t = .ok ef →
      UnmarshalBinary decEth f ([0x08, 0, 0, 0, 0xff, 0xff, 0xff, 0] ++ t)
        = some (⟨16777215, some ef⟩, none)) ∧
    (∀ t, 10 ≤ t.length → decEth t = .ok ef →
      UnmarshalBinary decEth f ([0x08, 0, 0, 0, 0, 0, 1, 0] ++ t)
        = some (⟨1, some ef⟩, none)) := by
  refine ⟨?_, ?_, ?_⟩
  · obtain ⟨c0, c1, c2, c3, c4, c5, c6, c7, hb⟩ := eight_cons b (by omega)
    have ht : 10 ≤ (b.drop 8).length := by simp; omega
    generalize b.drop 8 = t at hb ht hdec
    subst hb
    simp only [List.getElem?_cons_zero, List.getElem?_cons_succ, Option.some.injEq]
      at h0 h3 h4 h5 h6
    subst h0 h3 h4 h5 h6
    rw [UnmarshalBinary_cons decEth f _ _ _ _ _ _ _ _ t ht, hdec]
    simp [hflag]
  · intro t ht hd
    rw [List.cons_append, List.cons_append, List.cons_append, List.cons_append,
      List.cons_append, List.cons_append, List.cons_append, List.cons_append, List.nil_append,
      UnmarshalBinary_cons decEth f _ _ _ _ _ _ _ _ t ht, hd]
    rfl
  · intro t ht hd
    rw [List.cons_append, List.cons_append, List.cons_append, List.cons_append,
      List.cons_append, List.cons_append, List.cons_append, List.cons_append, List.nil_append,
      UnmarshalBinary_cons decEth f _ _ _ _ _ _ _ _ t ht, hd]
    rfl

/-- Witness of C8: byte 3 is part of the value read, here the field `01 02 03 04`, and the
reserved bits around it are set. -/
theorem UnmarshalBinary_VNI_witness :
    UnmarshalBinary rawDec ⟨0, none⟩ ([0x0f, 0xaa, 0xbb, 1, 2, 3, 4, 0xcc] ++ eth14)
      = some ({ VNI := (1 : Byte).val * 2 ^ 24 + (2 : Byte).val * 2 ^ 16
                  + (3 : Byte).val * 2 ^ 8 + (4 : Byte).val,
                Ethernet := some eth14 }, none) ∧
    UnmarshalBinary rawDec ⟨0, none⟩ ([0x08, 0, 0, 0, 0xff, 0xff, 0xff, 0] ++ eth14)
      = some (⟨16777215, some eth14⟩, none) ∧
    UnmarshalBinary rawDec ⟨0, none⟩ ([0x08, 0, 0, 0, 0, 0, 1, 0] ++ eth14)
      = some (⟨1, some eth14⟩, none) :=
  have h := UnmarshalBinary_VNI rawDec ⟨0, none⟩
    ([0x0f, 0xaa, 0xbb, 1, 2, 3, 4, 0xcc] ++ eth14) 0x0f 1 2 3 4 eth14
    (by decide) (by decide) (by decide) (by decide) (by decide) (by decide) (by decide)
    (by decide)
  ⟨h.1, h.2.1 eth14 (by decide) (by decide), h.2.2 eth14 (by decide) (by decide)⟩

/-- C9. The decoded VNI is not the low 24 bits of the field: a buffer that starts
`08 00 00 01 00 00 01 00` and goes on with at least 10 bytes that the inner decoder accepts
is accepted by `UnmarshalBinary` and decodes to VNI 16777217, which is not
`b[4]*2^16 + b[5]*2^8 + b[6] = 1` and is not `Valid`. -/
theorem UnmarshalBinary_VNI_not_masked {E : Type}
    (decEth : List Byte → Except EthError E) (f : Frame E) (t : List Byte) (ef : E)
    (ht : 10 ≤ t.length) (hd : decEth t = .ok ef) :
    UnmarshalBinary decEth f ([0x08, 0, 0, 1, 0, 0, 1, 0] ++ t)
      = some (⟨16777217, some ef⟩, none) ∧
    (16777217 : Nat) ≠ 0 * 2 ^ 16 + 0 * 2 ^ 8 + 1 ∧
    VNI.Valid 16777217 = false := by
  refine ⟨?_, by decide, by decide⟩
  rw [List.cons_append, List.cons_append, List.cons_append, List.cons_append,
    List.cons_append, List.cons_append, List.cons_append, List.cons_append, List.nil_append,
    UnmarshalBinary_cons decEth f _ _ _ _ _ _ _ _ t ht, hd]
  rfl

/-- Witness of C9: the inner frame is an empty Ethernet frame of 14 zero bytes. -/
theorem UnmarshalBinary_VNI_not_masked_witness :
    UnmarshalBinary rawDec ⟨0, none⟩ ([0x08, 0, 0, 1, 0, 0, 1, 0] ++ eth14)
      = some (⟨16777217, some eth14⟩, none) ∧
    (16777217 : Nat) ≠ 0 * 2 ^ 16 + 0 * 2 ^ 8 + 1 ∧
    VNI.Valid 16777217 = false :=
  UnmarshalBinary_VNI_not_masked rawDec ⟨0, none⟩ eth14 eth14 (by decide) (by decide)

/-- C10, as the claim states it, fails: the buffer `08 00 00 ff 00 00 2a 00` followed by a
well-formed inner frame is accepted by `UnmarshalBinary`, the decoded inner frame
re-encodes, and `MarshalBinary` of the decoded Frame returns `ErrInvalidVNI` instead of
writing the 24 low bits. -/
theorem MarshalBinary_of_decoded_counterexample :
    UnmarshalBinary rawDec ⟨0, none⟩ ([0x08, 0, 0, 0xff, 0, 0, 0x2a, 0] ++ eth14)
      = some (⟨4278190122, some eth14⟩, none) ∧
    rawEnc (some eth14) = .ok eth14 ∧
    MarshalBinary rawEnc ⟨4278190122, some eth14⟩ = some (.error .ErrInvalidVNI) := by
  decide

/-- C10, amended. For every buffer `b` that `UnmarshalBinary` accepts with byte 3 equal to
zero and whose decoded inner frame the collaborator re-encodes, `MarshalBinary` of the
decoded Frame succeeds and bytes 3..6 of its output are bytes 3..6 of `b`. `MarshalBinary`
does not disregard an upper byte: a decoded Frame whose VNI exceeds `2^24-1` is rejected
with `ErrInvalidVNI`. -/
theorem MarshalBinary_of_decoded {E : Type}
    (encEth : Option E → Except EthError (List Byte)) (decEth : List Byte → Except EthError E)
    (g f1 : Frame E) (b e : List Byte)
    (hu : UnmarshalBinary decEth g b = some (f1, none))
    (he : encEth f1.Ethernet = .ok e) :
    ∃ b3 b4 b5 b6, b[3]? = some b3 ∧ b[4]? = some b4 ∧ b[5]? = some b5 ∧ b[6]? = some b6 ∧
      (b3 = 0 → ∃ out, MarshalBinary encEth f1 = some (.ok out) ∧
        out[3]? = some b3 ∧ out[4]? = some b4 ∧ out[5]? = some b5 ∧ out[6]? = some b6) ∧
      (2 ^ 24 - 1 < f1.VNI → MarshalBinary encEth f1 = some (.error .ErrInvalidVNI)) := by
  have hlen : 18 ≤ b.length := by
    by_contra hn
    have hl : b.length < 18 := by omega
    simp [UnmarshalBinary, hl] at hu
  obtain ⟨c0, c1, c2, c3, c4, c5, c6, c7, hb⟩ := eight_cons b (by omega)
  have ht : 10 ≤ (b.drop 8).length := by simp; omega
  generalize b.drop 8 = t at hb ht
  subst hb
  rw [UnmarshalBinary_cons decEth g _ _ _ _ _ _ _ _ t ht] at hu
  have hf : f1.VNI = c3.val * 2 ^ 24 + c4.val * 2 ^ 16 + c5.val * 2 ^ 8 + c6.val := by
    split at hu
    · simp at hu
    · split at hu
      · simp at hu
      · simp only [Option.some.injEq, Prod.mk.injEq, and_true] at hu
        rw [← hu]
  have l3 := c3.isLt
  have l4 := c4.isLt
  have l5 := c5.isLt
  have l6 := c6.isLt
  refine ⟨c3, c4, c5, c6, rfl, rfl, rfl, rfl, ?_, ?_⟩
  · intro h3
    have h3v : c3.val = 0 := by rw [h3]; rfl
    have hv : f1.VNI ≤ MaxVNI := by
      simp only [MaxVNI, Nat.shiftLeft_eq]
      omega
    refine ⟨_, MarshalBinary_ok encEth f1 e hv he, ?_, ?_, ?_, ?_⟩
    · simp only [List.cons_append, List.getElem?_cons_zero, List.getElem?_cons_succ,
        Option.some.injEq]
      apply Fin.ext
      simp only [byte, Nat.shiftRight_eq_div_pow]
      omega
    · simp only [List.cons_append, List.getElem?_cons_zero, List.getElem?_cons_succ,
        Option.some.injEq]
      apply Fin.ext
      simp only [byte, Nat.shiftRight_eq_div_pow]
      omega
    · simp only [List.cons_append, List.getElem?_cons_zero, List.getElem?_cons_succ,
        Option.some.injEq]
      apply Fin.ext
      simp only [byte, Nat.shiftRight_eq_div_pow]
      omega
    · simp only [List.cons_append, List.getElem?_cons_zero, List.getElem?_cons_succ,
        Option.some.injEq]
      apply Fin.ext
      simp only [byte]
      omega
  · intro hbig
    have hn : ¬ f1.VNI ≤ MaxVNI := by
      simp only [MaxVNI, Nat.shiftLeft_eq]
      omega
    simp [MarshalBinary, VNI.Valid, hn]

/-- Witness of C10, amended: the canonical header of VNI 1 is decoded and re-encoded. -/
theorem MarshalBinary_of_decoded_witness :
    ∃ b3 b4 b5 b6 : Byte,
      ([0x08, 0, 0, 0, 0, 0, 1, 0] ++ eth14)[3]? = some b3 ∧
      ([0x08, 0, 0, 0, 0, 0, 1, 0] ++ eth14)[4]? = some b4 ∧
      ([0x08, 0, 0, 0, 0, 0, 1, 0] ++ eth14)[5]? = some b5 ∧
      ([0x08, 0, 0, 0, 0, 0, 1, 0] ++ eth14)[6]? = some b6 ∧
      (b3 = 0 → ∃ out, MarshalBinary rawEnc ⟨1, some eth14⟩ = some (.ok out) ∧
        out[3]? = some b3 ∧ out[4]? = some b4 ∧ out[5]? = some b5 ∧ out[6]? = some b6) ∧
      (2 ^ 24 - 1 < (Frame.mk 1 (some eth14)).VNI →
        MarshalBinary rawEnc ⟨1, some eth14⟩ = some (.error .ErrInvalidVNI)) :=
  MarshalBinary_of_decoded rawEnc rawDec ⟨0, none⟩ ⟨1, some eth14⟩
    ([0x08, 0, 0, 0, 0, 0, 1, 0] ++ eth14) eth14 (by decide) (by decide)

/-! ## Errors of the codec -/

/-- Shape of a successful `MarshalBinary`: the VNI is valid, the inner frame encoded, and
the output is the header followed by the inner encoding. -/
theorem MarshalBinary_ok_inv {E : Type} (encEth : Option E → Except EthError (List Byte))
    (f : Frame E) (b : List Byte) (hb : MarshalBinary encEth f = some (.ok b)) :
    f.VNI ≤ MaxVNI ∧ ∃ e, encEth f.Ethernet = .ok e ∧
      b = [8, 0, 0, byte (f.VNI >>> 24), byte (f.VNI >>> 16), byte (f.VNI >>> 8),
            byte f.VNI, 0] ++ e := by
  have hv : f.VNI ≤ MaxVNI := by
    by_contra hn
    simp [MarshalBinary, VNI.Valid, hn] at hb
  refine ⟨hv, ?_⟩
  cases he : encEth f.Ethernet with
  | error err => simp [MarshalBinary, VNI.Valid, hv, he] at hb
  | ok e =>
    refine ⟨e, rfl, ?_⟩
    rw [MarshalBinary_ok encEth f e hv he] at hb
    injection hb with hb
    injection hb with hb
    exact hb.symm

/-- An error of package `ethernet` is neither of the two error variables of `vxlan`. -/
theorem EthError_ne (err : EthError) :
    err.val ≠ .ErrInvalidFrame ∧ err.val ≠ .ErrInvalidVNI := by
  obtain ⟨e, he⟩ := err
  cases e <;> simp [Error.foreign] at he ⊢

/-- C11. The doc comment of `UnmarshalBinary` promises `ErrInvalidVNI` for an invalid VNI;
the code never returns it. A buffer that starts `08 00 00 01 00 00 00 00` and goes on with
at least 10 bytes that the inner decoder accepts holds the field value 16777216, which is
above `MaxVNI` and not `Valid`, and `UnmarshalBinary` returns no error and stores that VNI;
on no buffer at all does `UnmarshalBinary` return `ErrInvalidVNI`. -/
theorem UnmarshalBinary_accepts_invalid_VNI {E : Type}
    (decEth : List Byte → Except EthError E) (f : Frame E) (t : List Byte) (ef : E)
    (ht : 10 ≤ t.length) (hd : decEth t = .ok ef) :
    MaxVNI < 16777216 ∧ VNI.Valid 16777216 = false ∧
    UnmarshalBinary decEth f ([0x08, 0, 0, 1, 0, 0, 0, 0] ++ t)
      = some (⟨16777216, some ef⟩, none) ∧
    (∀ (b : List Byte) (f1 : Frame E),
      UnmarshalBinary decEth f b ≠ some (f1, some .ErrInvalidVNI)) := by
  refine ⟨by decide, by decide, ?_, ?_⟩
  · rw [List.cons_append, List.cons_append, List.cons_append, List.cons_append,
      List.cons_append, List.cons_append, List.cons_append, List.cons_append,
      List.nil_append, UnmarshalBinary_cons decEth f _ _ _ _ _ _ _ _ t ht, hd]
    rfl
  · intro b f1 hr
    by_cases hl : b.length < 18
    · simp [UnmarshalBinary, hl] at hr
    · obtain ⟨c0, c1, c2, c3, c4, c5, c6, c7, hb⟩ := eight_cons b (by omega)
      have ht1 : 10 ≤ (b.drop 8).length := by simp; omega
      generalize b.drop 8 = t1 at hb ht1
      subst hb
      rw [UnmarshalBinary_cons decEth f _ _ _ _ _ _ _ _ t1 ht1] at hr
      split at hr
      · simp at hr
      · split at hr
        · rename_i err _
          simp only [Option.some.injEq, Prod.mk.injEq] at hr
          exact (EthError_ne err).2 hr.2
        · simp at hr

/-- Witness of C11: the inner frame is an empty Ethernet frame of 14 zero bytes; the
buffer tried for `ErrInvalidVNI` is that same buffer. -/
theorem UnmarshalBinary_accepts_invalid_VNI_witness :
    MaxVNI < 16777216 ∧ VNI.Valid 16777216 = false ∧
    UnmarshalBinary rawDec ⟨0, none⟩ ([0x08, 0, 0, 1, 0, 0, 0, 0] ++ eth14)
      = some (⟨16777216, some eth14⟩, none) ∧
    UnmarshalBinary rawDec ⟨0, none⟩ ([0x08, 0, 0, 1, 0, 0, 0, 0] ++ eth14)
      ≠ some (⟨16777216, some eth14⟩, some .ErrInvalidVNI) :=
  have h := UnmarshalBinary_accepts_invalid_VNI rawDec ⟨0, none⟩ eth14 eth14
    (by decide) (by decide)
  ⟨h.1, h.2.1, h.2.2.1, h.2.2.2 ([0x08, 0, 0, 1, 0, 0, 0, 0] ++ eth14) ⟨16777216, some eth14⟩⟩

/-- C12. Inner-codec error on decode: on every buffer of at least 18 bytes that passes the
I-flag test `b[0] >> 3 == 1`, when the inner decoder run on exactly the bytes from offset 8
to the end fails with the error `err`, `UnmarshalBinary` returns that same error value, and
the receiver keeps its Ethernet field. -/
theorem UnmarshalBinary_inner_error {E : Type} (decEth : List Byte → Except EthError E)
    (f : Frame E) (b : List Byte) (b0 : Byte) (err : EthError)
    (hlen : 18 ≤ b.length) (h0 : b[0]? = some b0) (hflag : b0.val >>> 3 = 1)
    (hd : decEth (b.drop 8) = .error err) :
    ∃ f1, UnmarshalBinary decEth f b = some (f1, some err.val) ∧
      f1.Ethernet = f.Ethernet := by
  obtain ⟨c0, c1, c2, c3, c4, c5, c6, c7, hb⟩ := eight_cons b (by omega)
  have ht : 10 ≤ (b.drop 8).length := by simp; omega
  generalize b.drop 8 = t at hb ht hd
  subst hb
  simp only [List.getElem?_cons_zero, Option.some.injEq] at h0
  subst h0
  rw [UnmarshalBinary_cons decEth f _ _ _ _ _ _ _ _ t ht, hd]
  simp [hflag]

/-- Witness of C12: the inner frame is refused for its frame check sequence, an error of
package `ethernet` that stands here as `other 2`. -/
theorem UnmarshalBinary_inner_error_witness :
    ∃ f1, UnmarshalBinary (fun _ => (.error ⟨.other 2, rfl⟩ : Except EthError (List Byte)))
        ⟨0, none⟩ ([0x08, 0, 0, 0, 0, 0, 1, 0] ++ eth14)
        = some (f1, some (Error.other 2)) ∧
      f1.Ethernet = none :=
  UnmarshalBinary_inner_error (fun _ => (.error ⟨.other 2, rfl⟩ : Except EthError (List Byte)))
    ⟨0, none⟩ ([0x08, 0, 0, 0, 0, 0, 1, 0] ++ eth14) 0x08 ⟨.other 2, rfl⟩
    (by decide) (by decide) (by decide) rfl

/-- C13. Inner-codec error on encode: for every Frame with `VNI ≤ 2^24-1` whose inner
frame's encoding fails with the error `err`, `MarshalBinary` returns that same error value
and no bytes. -/
theorem MarshalBinary_inner_error {E : Type} (encEth : Option E → Except EthError (List Byte))
    (f : Frame E) (err : EthError) (hv : f.VNI ≤ 2 ^ 24 - 1)
    (he : encEth f.Ethernet = .error err) :
    MarshalBinary encEth f = some (.error err.val) ∧
    ∀ out, MarshalBinary encEth f ≠ some (.ok out) := by
  have hv1 : f.VNI ≤ MaxVNI := hv
  have h : MarshalBinary encEth f = some (.error err.val) := by
    simp [MarshalBinary, VNI.Valid, hv1, he]
  refine ⟨h, ?_⟩
  intro out ho
  rw [h] at ho
  injection ho with ho
  injection ho

/-- Witness of C13: VNI 0 over an inner frame that the stand-in encoder refuses. -/
theorem MarshalBinary_inner_error_witness :
    MarshalBinary rawEnc ⟨0, some []⟩ = some (.error (Error.other 1)) ∧
    MarshalBinary rawEnc ⟨0, some []⟩ ≠ some (.ok []) :=
  have h := MarshalBinary_inner_error rawEnc ⟨0, some []⟩ ⟨.other 1, rfl⟩
    (by decide) (by decide)
  ⟨h.1, h.2 []⟩

/-- The header bytes of two valid VNIs agree only when the VNIs do. -/
theorem header_injective (v w : Nat) (hv : v ≤ MaxVNI) (hw : w ≤ MaxVNI)
    (h16 : byte (v >>> 16) = byte (w >>> 16)) (h8 : byte (v >>> 8) = byte (w >>> 8))
    (h0 : byte v = byte w) : v = w := by
  have a := (valid_bytes v hv).2
  have b := (valid_bytes w hw).2
  rw [h16, h8, h0] at a
  omega

/-- C14. Encode is injective: when `MarshalBinary` accepts `f` and `g`, equal outputs force
equal VNIs and equal inner encodings, hence equal Frames when the collaborator's encoding
is injective; and equal 8-byte headers alone force equal VNIs, so two distinct valid VNIs
never give the same header. -/
theorem MarshalBinary_injective {E : Type} (encEth : Option E → Except EthError (List Byte))
    (f g : Frame E) (bf bg : List Byte)
    (hf : MarshalBinary encEth f = some (.ok bf))
    (hg : MarshalBinary encEth g = some (.ok bg)) :
    (bf.take 8 = bg.take 8 → f.VNI = g.VNI) ∧
    (bf = bg → f.VNI = g.VNI ∧ encEth f.Ethernet = encEth g.Ethernet ∧
      ((∀ x y e, encEth x = .ok e → encEth y = .ok e → x = y) → f = g)) := by
  obtain ⟨hvf, ef, hef, hbf⟩ := MarshalBinary_ok_inv encEth f bf hf
  obtain ⟨hvg, eg, heg, hbg⟩ := MarshalBinary_ok_inv encEth g bg hg
  have hhead : bf.take 8 = bg.take 8 → f.VNI = g.VNI := by
    intro h
    rw [hbf, hbg] at h
    simp only [List.cons_append, List.nil_append, List.take_succ_cons, List.take_zero,
      List.cons.injEq, and_true, true_and] at h
    exact header_injective f.VNI g.VNI hvf hvg h.2.1 h.2.2.1 h.2.2.2
  refine ⟨hhead, ?_⟩
  intro h
  have hv : f.VNI = g.VNI := hhead (by rw [h])
  have he : ef = eg := by
    rw [hbf, hbg, hv] at h
    exact List.append_cancel_left h
  refine ⟨hv, ?_, ?_⟩
  · rw [hef, heg, he]
  · intro hinj
    have hx : f.Ethernet = g.Ethernet := hinj _ _ eg (he ▸ hef) heg
    cases f
    cases g
    simp_all

/-- Witness of C14: the same Frame encoded twice. -/
theorem MarshalBinary_injective_witness :
    (([0x08, 0, 0, 0, 0, 0, 1, 0] ++ eth14).take 8
        = ([0x08, 0, 0, 0, 0, 0, 1, 0] ++ eth14).take 8 →
      (Frame.mk 1 (some eth14)).VNI = (Frame.mk 1 (some eth14)).VNI) ∧
    ([0x08, 0, 0, 0, 0, 0, 1, 0] ++ eth14 = [0x08, 0, 0, 0, 0, 0, 1, 0] ++ eth14 →
      (Frame.mk 1 (some eth14)).VNI = (Frame.mk 1 (some eth14)).VNI ∧
      rawEnc (Frame.mk 1 (some eth14)).Ethernet = rawEnc (Frame.mk 1 (some eth14)).Ethernet ∧
      ((∀ x y e, rawEnc x = .ok e → rawEnc y = .ok e → x = y) →
        Frame.mk 1 (some eth14) = Frame.mk 1 (some eth14))) :=
  MarshalBinary_injective rawEnc ⟨1, some eth14⟩ ⟨1, some eth14⟩
    ([0x08, 0, 0, 0, 0, 0, 1, 0] ++ eth14) ([0x08, 0, 0, 0, 0, 0, 1, 0] ++ eth14)
    (by decide) (by decide)

/-! ## The VNI -/

/-- C15. `Valid` holds of `v` exactly when `v ≤ MaxVNI`, with `MaxVNI = 2^24 - 1 = 16777215`;
that is, exactly when `v` fits in 24 bits, `v mod 2^24 = v`. It holds so for every natural
number, the 32-bit values among them. -/
theorem VNI_Valid_iff (v : Nat) :
    (VNI.Valid v = true ↔ v ≤ MaxVNI) ∧ MaxVNI = 2 ^ 24 - 1 ∧ MaxVNI = 16777215 ∧
    (VNI.Valid v = true ↔ v % 2 ^ 24 = v) := by
  have hm : MaxVNI = 16777215 := by decide
  refine ⟨by simp [VNI.Valid], by decide, hm, ?_⟩
  simp only [VNI.Valid, decide_eq_true_eq, hm]
  omega

/-! ## Totality and the receiver -/

/-- The three ways `UnmarshalBinary` ends on a buffer of at least 18 bytes, and the one way
on a shorter buffer; it ends without a panic in each. -/
theorem UnmarshalBinary_cases {E : Type} (decEth : List Byte → Except EthError E)
    (f : Frame E) (b : List Byte) :
    (b.length < 18 ∧ UnmarshalBinary decEth f b = some (f, some .ErrUnexpectedEOF)) ∨
    (18 ≤ b.length ∧ ∃ c0 c1 c2 c3 c4 c5 c6 c7,
      b = c0 :: c1 :: c2 :: c3 :: c4 :: c5 :: c6 :: c7 :: b.drop 8 ∧
      ((c0.val >>> 3 ≠ 1 ∧ UnmarshalBinary decEth f b = some (f, some .ErrInvalidFrame)) ∨
       (c0.val >>> 3 = 1 ∧ ∃ err, decEth (b.drop 8) = .error err ∧
          UnmarshalBinary decEth f b
            = some ({ f with VNI := c3.val * 2 ^ 24 + c4.val * 2 ^ 16 + c5.val * 2 ^ 8
                        + c6.val }, some err.val)) ∨
       (c0.val >>> 3 = 1 ∧ ∃ ef, decEth (b.drop 8) = .ok ef ∧
          UnmarshalBinary decEth f b
            = some ({ VNI := c3.val * 2 ^ 24 + c4.val * 2 ^ 16 + c5.val * 2 ^ 8 + c6.val,
                      Ethernet := some ef }, none)))) := by
  by_cases hl : b.length < 18
  · left
    exact ⟨hl, by simp [UnmarshalBinary, hl]⟩
  · right
    refine ⟨by omega, ?_⟩
    obtain ⟨c0, c1, c2, c3, c4, c5, c6, c7, hb⟩ := eight_cons b (by omega)
    have ht : 10 ≤ (b.drop 8).length := by simp; omega
    refine ⟨c0, c1, c2, c3, c4, c5, c6, c7, hb, ?_⟩
    generalize b.drop 8 = t at hb ht
    subst hb
    rw [UnmarshalBinary_cons decEth f _ _ _ _ _ _ _ _ t ht]
    by_cases h0 : c0.val >>> 3 = 1
    · right
      cases hd : decEth t with
      | error err =>
        left
        exact ⟨h0, err, rfl, by simp [h0]⟩
      | ok ef =>
        right
        exact ⟨h0, ef, rfl, by simp [h0]⟩
    · left
      exact ⟨h0, by simp [h0]⟩

/-- `UnmarshalBinary` always returns: a receiver state and an error or `nil`. -/
theorem UnmarshalBinary_returns {E : Type} (decEth : List Byte → Except EthError E)
    (f : Frame E) (b : List Byte) :
    ∃ f1 e, UnmarshalBinary decEth f b = some (f1, e) := by
  rcases UnmarshalBinary_cases decEth f b with ⟨_, h⟩ | ⟨_, _, _, _, _, _, _, _, _, _, h⟩
  · exact ⟨_, _, h⟩
  · rcases h with ⟨_, h⟩ | ⟨_, _, _, h⟩ | ⟨_, _, _, h⟩
    · exact ⟨_, _, h⟩
    · exact ⟨_, _, h⟩
    · exact ⟨_, _, h⟩

/-- C16. Receiver contract of `Client.Read`, the socket read being the step `readFrom`:
when the read fails with `err`, `Read` returns `err` with no Frame and no address; when the
read yields `n` bytes from `src` (with `n` within the buffer), `Read` returns `src` together
with what `UnmarshalBinary` returns on a fresh Frame and exactly the first `n` bytes of the
buffer: the decoded Frame, and the codec's own error when decoding fails. -/
theorem Client_Read_contract {E A : Type} (decEth : List Byte → Except EthError E)
    (readFrom : List Byte → Except Error (List Byte × Nat × A)) (cb : List Byte) :
    (∀ err, readFrom cb = .error err →
      Client.Read decEth readFrom cb = some (none, none, some err)) ∧
    (∀ cb1 n src, readFrom cb = .ok (cb1, n, src) → n ≤ cb1.length →
      ∃ f1 e, UnmarshalBinary decEth ⟨0, none⟩ (cb1.take n) = some (f1, e) ∧
        Client.Read decEth readFrom cb = some (some f1, some src, e)) := by
  constructor
  · intro err h
    simp [Client.Read, h]
  · intro cb1 n src h hn
    obtain ⟨f1, e, hu⟩ := UnmarshalBinary_returns decEth ⟨0, none⟩ (cb1.take n)
    refine ⟨f1, e, hu, ?_⟩
    simp [Client.Read, h, sliceTo, hn, hu]

/-- Witness of C16: a failed read, a datagram of 22 bytes in a buffer of 30 that decodes to
VNI 1, and a datagram of 1 byte that the codec refuses as truncated. -/
theorem Client_Read_contract_witness :
    Client.Read rawDec
        (fun _ => (.error (.other 3) : Except Error (List Byte × Nat × Nat)))
        (List.replicate 30 0)
      = some (none, none, some (Error.other 3)) ∧
    Client.Read rawDec
        (fun _ => (.ok ([0x08, 0, 0, 0, 0, 0, 1, 0] ++ eth14 ++ List.replicate 8 0xee, 22, 7) :
          Except Error (List Byte × Nat × Nat)))
        (List.replicate 30 0)
      = some (some ⟨1, some eth14⟩, some 7, none) ∧
    Client.Read rawDec
        (fun _ => (.ok ([0x08, 0, 0, 0, 0, 0, 1, 0] ++ eth14 ++ List.replicate 8 0xee, 1, 7) :
          Except Error (List Byte × Nat × Nat)))
        (List.replicate 30 0)
      = some (some ⟨0, none⟩, some 7, some .ErrUnexpectedEOF) := by
  refine ⟨(Client_Read_contract rawDec _ (List.replicate 30 0)).1 (.other 3) rfl, ?_, ?_⟩
  · obtain ⟨f1, e, hu, hr⟩ := (Client_Read_contract rawDec
      (fun _ => (.ok ([0x08, 0, 0, 0, 0, 0, 1, 0] ++ eth14 ++ List.replicate 8 0xee, 22, 7) :
          Except Error (List Byte × Nat × Nat)))
      (List.replicate 30 0)).2 _ 22 7 rfl (by decide)
    have h2 : UnmarshalBinary rawDec ⟨0, none⟩
        (([0x08, 0, 0, 0, 0, 0, 1, 0] ++ eth14 ++ List.replicate 8 0xee).take 22)
        = some (⟨1, some eth14⟩, none) := by decide
    rw [h2] at hu
    injection hu with hu
    injection hu with h3 h4
    rw [hr, ← h3, ← h4]
  · obtain ⟨f1, e, hu, hr⟩ := (Client_Read_contract rawDec
      (fun _ => (.ok ([0x08, 0, 0, 0, 0, 0, 1, 0] ++ eth14 ++ List.replicate 8 0xee, 1, 7) :
          Except Error (List Byte × Nat × Nat)))
      (List.replicate 30 0)).2 _ 1 7 rfl (by decide)
    have h2 : UnmarshalBinary rawDec ⟨0, none⟩
        (([0x08, 0, 0, 0, 0, 0, 1, 0] ++ eth14 ++ List.replicate 8 0xee).take 1)
        = some (⟨0, none⟩, some .ErrUnexpectedEOF) := by decide
    rw [h2] at hu
    injection hu with hu
    injection hu with h3 h4
    rw [hr, ← h3, ← h4]

/-- C19. Decode is total and never indexes out of range: on every buffer, the empty one
too, `UnmarshalBinary` returns a receiver state with an error or `nil` and does not panic;
once `len(b) >= 18`, the index `b[0]`, the slice `b[3:]` with the four bytes `Uint32` reads,
and the slice `b[8:]`, which has at least 10 bytes, are all in range. -/
theorem UnmarshalBinary_never_panics {E : Type} (decEth : List Byte → Except EthError E)
    (f : Frame E) (b : List Byte) :
    (∃ f1 e, UnmarshalBinary decEth f b = some (f1, e)) ∧
    UnmarshalBinary decEth f b ≠ none ∧
    UnmarshalBinary decEth f [] = some (f, some .ErrUnexpectedEOF) ∧
    (18 ≤ b.length →
      (∃ b0, b[0]? = some b0) ∧
      (∃ s v, sliceFrom b 3 = some s ∧ Uint32 s = some v) ∧
      (∃ s8, sliceFrom b 8 = some s8 ∧ 10 ≤ s8.length)) := by
  obtain ⟨f1, e, h⟩ := UnmarshalBinary_returns decEth f b
  refine ⟨⟨f1, e, h⟩, by rw [h]; simp, by simp [UnmarshalBinary], ?_⟩
  intro hlen
  obtain ⟨c0, c1, c2, c3, c4, c5, c6, c7, hb⟩ := eight_cons b (by omega)
  have ht : 10 ≤ (b.drop 8).length := by simp; omega
  generalize b.drop 8 = t at hb ht
  subst hb
  refine ⟨⟨c0, rfl⟩, ?_, ?_⟩
  · exact ⟨c3 :: c4 :: c5 :: c6 :: c7 :: t, _, by simp [sliceFrom], Uint32_cons c3 c4 c5 c6 _⟩
  · exact ⟨t, by simp [sliceFrom], ht⟩

/-! ## The I-flag test and the reserved bits -/

/-- C17. Exact condition for `ErrInvalidFrame`: on every buffer `b`, `UnmarshalBinary`
returns `ErrInvalidFrame` exactly when `len(b) >= 18` and `b[0] >> 3 != 1`, that is when
the flags byte lies outside `0x08..0x0F`; two first bytes with the same five high bits, so
differing in the three low bits only, get the same decision. -/
theorem UnmarshalBinary_ErrInvalidFrame_iff {E : Type}
    (decEth : List Byte → Except EthError E) (f : Frame E) (b : List Byte) :
    ((∃ f1, UnmarshalBinary decEth f b = some (f1, some .ErrInvalidFrame)) ↔
      18 ≤ b.length ∧ ∃ b0, b[0]? = some b0 ∧ b0.val >>> 3 ≠ 1) ∧
    (∀ b0 : Byte, b0.val >>> 3 ≠ 1 ↔ ¬ (0x08 ≤ b0.val ∧ b0.val ≤ 0x0F)) ∧
    (∀ (b0 c0 : Byte) (t : List Byte), b0.val >>> 3 = c0.val >>> 3 →
      ((∃ f1, UnmarshalBinary decEth f (b0 :: t) = some (f1, some .ErrInvalidFrame)) ↔
        (∃ f1, UnmarshalBinary decEth f (c0 :: t) = some (f1, some .ErrInvalidFrame)))) := by
  have key : ∀ b : List Byte,
      ((∃ f1, UnmarshalBinary decEth f b = some (f1, some .ErrInvalidFrame)) ↔
        18 ≤ b.length ∧ ∃ b0, b[0]? = some b0 ∧ b0.val >>> 3 ≠ 1) := by
    intro b
    rcases UnmarshalBinary_cases decEth f b with ⟨hl, h⟩ |
      ⟨hl, c0, c1, c2, c3, c4, c5, c6, c7, hb, h⟩
    · rw [h]
      constructor
      · rintro ⟨f1, h1⟩
        simp at h1
      · rintro ⟨h18, _⟩
        omega
    · have h0 : b[0]? = some c0 := by rw [hb]; rfl
      rcases h with ⟨hc, h⟩ | ⟨hc, err, _, h⟩ | ⟨hc, ef, _, h⟩
      · rw [h]
        exact ⟨fun _ => ⟨hl, c0, h0, hc⟩, fun _ => ⟨f, rfl⟩⟩
      · rw [h]
        constructor
        · rintro ⟨f1, h1⟩
          simp only [Option.some.injEq, Prod.mk.injEq] at h1
          exact absurd h1.2 (EthError_ne err).1
        · rintro ⟨_, b0, hb0, hne⟩
          rw [h0] at hb0
          injection hb0 with hb0
          rw [← hb0] at hne
          exact absurd hc hne
      · rw [h]
        constructor
        · rintro ⟨f1, h1⟩
          simp at h1
        · rintro ⟨_, b0, hb0, hne⟩
          rw [h0] at hb0
          injection hb0 with hb0
          rw [← hb0] at hne
          exact absurd hc hne
  refine ⟨key b, ?_, ?_⟩
  · intro b0
    rw [Nat.shiftRight_eq_div_pow]
    omega
  · intro b0 c0 t hbc
    rw [key (b0 :: t), key (c0 :: t)]
    simp only [List.length_cons, List.getElem?_cons_zero, Option.some.injEq, exists_eq_left',
      hbc]

/-- C18. Decode does not depend on the reserved bits it does not inspect: two buffers of
equal length that agree in the five high bits of byte 0 and in every byte other than bytes
0, 1, 2 and 7 give the same result of `UnmarshalBinary` on the same receiver: the same
error, or success with the same VNI and the same inner frame. -/
theorem UnmarshalBinary_reserved_independent {E : Type}
    (decEth : List Byte → Except EthError E) (f : Frame E) (b d : List Byte)
    (hlen : b.length = d.length)
    (h0 : (b[0]?).map (fun x => x.val >>> 3) = (d[0]?).map (fun x => x.val >>> 3))
    (hrest : ∀ i, i ≠ 0 → i ≠ 1 → i ≠ 2 → i ≠ 7 → b[i]? = d[i]?) :
    UnmarshalBinary decEth f b = UnmarshalBinary decEth f d := by
  by_cases hl : b.length < 18
  · have hl2 : d.length < 18 := by omega
    simp [UnmarshalBinary, hl, hl2]
  · obtain ⟨b0, b1, b2, b3, b4, b5, b6, b7, hb⟩ := eight_cons b (by omega)
    obtain ⟨d0, d1, d2, d3, d4, d5, d6, d7, hd⟩ := eight_cons d (by omega)
    have htb : 10 ≤ (b.drop 8).length := by simp; omega
    have ht : b.drop 8 = d.drop 8 := by
      apply List.ext_getElem?
      intro i
      rw [List.getElem?_drop, List.getElem?_drop]
      exact hrest (8 + i) (by omega) (by omega) (by omega) (by omega)
    have e3 := hrest 3 (by omega) (by omega) (by omega) (by omega)
    have e4 := hrest 4 (by omega) (by omega) (by omega) (by omega)
    have e5 := hrest 5 (by omega) (by omega) (by omega) (by omega)
    have e6 := hrest 6 (by omega) (by omega) (by omega) (by omega)
    rw [← ht] at hd
    generalize b.drop 8 = t at hb hd htb
    subst hb
    subst hd
    simp only [List.getElem?_cons_zero, List.getElem?_cons_succ, Option.some.injEq,
      Option.map_some'] at h0 e3 e4 e5 e6
    subst e3 e4 e5 e6
    rw [UnmarshalBinary_cons decEth f _ _ _ _ _ _ _ _ t htb,
      UnmarshalBinary_cons decEth f _ _ _ _ _ _ _ _ t htb, h0]

/-- Witness of C18: flags `08` against `0f`, and reserved bytes 1, 2 and 7 zero against
`aa bb cc`, over the same VNI field and inner frame. -/
theorem UnmarshalBinary_reserved_independent_witness :
    UnmarshalBinary rawDec ⟨0, none⟩ ([0x08, 0, 0, 0, 0, 0, 1, 0] ++ eth14)
      = UnmarshalBinary rawDec ⟨0, none⟩ ([0x0f, 0xaa, 0xbb, 0, 0, 0, 1, 0xcc] ++ eth14) :=
  UnmarshalBinary_reserved_independent rawDec ⟨0, none⟩
    ([0x08, 0, 0, 0, 0, 0, 1, 0] ++ eth14) ([0x0f, 0xaa, 0xbb, 0, 0, 0, 1, 0xcc] ++ eth14)
    (by decide) (by decide)
    (fun i h0 h1 h2 h7 => by
      match i, h0, h1, h2, h7 with
      | 3, _, _, _, _ => rfl
      | 4, _, _, _, _ => rfl
      | 5, _, _, _, _ => rfl
      | 6, _, _, _, _ => rfl
      | (n + 8), _, _, _, _ => rfl)

/-! ## Effect of a failed decode on the receiver -/

/-- C20, as the claim states it, fails: on the 18-byte buffer `08 00 00 00 00 00 01 00`
followed by ten zero bytes the inner decoder refuses its ten bytes as truncated, so the
error returned is `io.ErrUnexpectedEOF`, the truncated-input error, and yet the VNI of the
receiver has gone from 5 to 1. -/
theorem UnmarshalBinary_failure_effect_counterexample :
    UnmarshalBinary rawDec ⟨5, none⟩ ([0x08, 0, 0, 0, 0, 0, 1, 0] ++ List.replicate 10 0)
      = some (⟨1, none⟩, some .ErrUnexpectedEOF) ∧
    (Frame.mk 1 (none : Option (List Byte))).VNI
      ≠ (Frame.mk 5 (none : Option (List Byte))).VNI := by
  decide

/-- C20, amended. Whenever `UnmarshalBinary` returns an error, the receiver's Ethernet field
is unchanged; when the error is `ErrInvalidFrame`, or is the truncated-input error returned
for `len(b) < 18`, the VNI field is unchanged too; in every other case the error comes from
the inner Ethernet decoder run on the bytes from offset 8, whichever error value that is,
and the VNI field has been overwritten with `b[3]*2^24 + b[4]*2^16 + b[5]*2^8 + b[6]`. -/
theorem UnmarshalBinary_failure_effect {E : Type} (decEth : List Byte → Except EthError E)
    (f f1 : Frame E) (b : List Byte) (e : Error)
    (h : UnmarshalBinary decEth f b = some (f1, some e)) :
    f1.Ethernet = f.Ethernet ∧
    (e = .ErrInvalidFrame → f1.VNI = f.VNI) ∧
    (b.length < 18 → e = .ErrUnexpectedEOF ∧ f1.VNI = f.VNI) ∧
    (18 ≤ b.length → e ≠ .ErrInvalidFrame →
      ∃ err b3 b4 b5 b6, decEth (b.drop 8) = .error err ∧ e = err.val ∧
        b[3]? = some b3 ∧ b[4]? = some b4 ∧ b[5]? = some b5 ∧ b[6]? = some b6 ∧
        f1.VNI = b3.val * 2 ^ 24 + b4.val * 2 ^ 16 + b5.val * 2 ^ 8 + b6.val) := by
  rcases UnmarshalBinary_cases decEth f b with ⟨hl, h1⟩ |
    ⟨hl, c0, c1, c2, c3, c4, c5, c6, c7, hb, h1⟩
  · rw [h1] at h
    simp only [Option.some.injEq, Prod.mk.injEq] at h
    obtain ⟨hf, he⟩ := h
    subst hf
    refine ⟨rfl, fun _ => rfl, fun _ => ⟨he.symm, rfl⟩, fun h18 => by omega⟩
  · rcases h1 with ⟨hc, h1⟩ | ⟨hc, err, hd, h1⟩ | ⟨hc, ef, _, h1⟩
    · rw [h1] at h
      simp only [Option.some.injEq, Prod.mk.injEq] at h
      obtain ⟨hf, he⟩ := h
      subst hf
      refine ⟨rfl, fun _ => rfl, fun h18 => by omega, fun _ hne => absurd he.symm hne⟩
    · rw [h1] at h
      simp only [Option.some.injEq, Prod.mk.injEq] at h
      obtain ⟨hf, he⟩ := h
      subst hf
      refine ⟨rfl, fun hi => absurd (he.trans hi) (EthError_ne err).1, fun h18 => by omega, ?_⟩
      intro _ _
      refine ⟨err, c3, c4, c5, c6, hd, he.symm, ?_, ?_, ?_, ?_, rfl⟩ <;> rw [hb] <;> rfl
    · rw [h1] at h
      simp at h

/-- Witness of C20, amended: the 18-byte buffer whose inner bytes the decoder refuses. -/
theorem UnmarshalBinary_failure_effect_witness :
    (Frame.mk 1 (none : Option (List Byte))).Ethernet
        = (Frame.mk 5 (none : Option (List Byte))).Ethernet ∧
    (Error.ErrUnexpectedEOF = .ErrInvalidFrame →
      (Frame.mk 1 (none : Option (List Byte))).VNI
        = (Frame.mk 5 (none : Option (List Byte))).VNI) ∧
    (([0x08, 0, 0, 0, 0, 0, 1, 0] ++ List.replicate 10 0 : List Byte).length < 18 →
      Error.ErrUnexpectedEOF = .ErrUnexpectedEOF ∧
      (Frame.mk 1 (none : Option (List Byte))).VNI
        = (Frame.mk 5 (none : Option (List Byte))).VNI) ∧
    (18 ≤ ([0x08, 0, 0, 0, 0, 0, 1, 0] ++ List.replicate 10 0 : List Byte).length →
      Error.ErrUnexpectedEOF ≠ .ErrInvalidFrame →
      ∃ err b3 b4 b5 b6,
        rawDec (([0x08, 0, 0, 0, 0, 0, 1, 0] ++ List.replicate 10 0 : List Byte).drop 8)
          = .error err ∧
        Error.ErrUnexpectedEOF = err.val ∧
        ([0x08, 0, 0, 0, 0, 0, 1, 0] ++ List.replicate 10 0 : List Byte)[3]? = some b3 ∧
        ([0x08, 0, 0, 0, 0, 0, 1, 0] ++ List.replicate 10 0 : List Byte)[4]? = some b4 ∧
        ([0x08, 0, 0, 0, 0, 0, 1, 0] ++ List.replicate 10 0 : List Byte)[5]? = some b5 ∧
        ([0x08, 0, 0, 0, 0, 0, 1, 0] ++ List.replicate 10 0 : List Byte)[6]? = some b6 ∧
        (Frame.mk 1 (none : Option (List Byte))).VNI
          = b3.val * 2 ^ 24 + b4.val * 2 ^ 16 + b5.val * 2 ^ 8 + b6.val) :=
  UnmarshalBinary_failure_effect rawDec ⟨5, none⟩ ⟨1, none⟩
    ([0x08, 0, 0, 0, 0, 0, 1, 0] ++ List.replicate 10 0) .ErrUnexpectedEOF (by decide)

end vxlan
